import Mathlib

/-!
# dylib: library handles and typed function bindings

A shallow embedding of `dynamic_link.hpp`.

* The operating-system loader (`dlopen` / `dlsym` / `dlclose`) is not part of the
  header; `open_library` and `get_function` are taken as the fields of a `Loader`,
  and every call of `close_library` is recorded in the world.
* `std::shared_ptr<handle_object>` is an optional cell number, `std::weak_ptr` likewise.
  The strong count of a cell is the number of live `library` objects whose
  `m_handle` refers to it; the `handle_object` is destroyed by the step that brings
  this number to zero.
* Null (`nullptr`, a failed `dlopen`, a failed `dlsym`) is `0`.
* An operation either returns (`Outcome.done`) or meets undefined behaviour
  (`Outcome.stuck`): a call through an empty `shared_ptr`, the use of an object that is
  not alive, and a call of `close_library` with the null handle, which the loader does
  not accept (`dlclose(NULL)` does not return). The state kept in `stuck` is the one
  in which the program stopped, the call that did not return included.
-/

namespace dylib

/-- The token `_detail::dll_handle`; `0` is the null handle. -/
abbrev dll_handle := Nat

/-- The address `function_type`, seen as a number; `0` is `nullptr`. -/
abbrev function_pointer := Nat

/-- The two loader primitives whose result the header uses. -/
structure Loader where
  /-- The result of `_detail::open_library` -/
  open_library : String → dll_handle
  /-- The result of `_detail::get_function` -/
  get_function : dll_handle → String → function_pointer

/-- The class `_detail::handle_object` -/
structure handle_object where
  m_handle : dll_handle
deriving DecidableEq, Repr

/-- The class `library`: `m_handle` is the `shared_ptr` (`none` when empty). -/
structure library where
  m_handle : Option Nat
  m_library_name : String
deriving DecidableEq, Repr

/-- The class `function<Ret(Args...)>`: `m_handle` is the `weak_ptr`. -/
structure function where
  m_func : function_pointer
  m_symbol : String
  m_handle : Option Nat
deriving DecidableEq, Repr

/-- One call of `_detail::close_library`: the cell whose destructor made it and its argument. -/
structure CloseCall where
  cell : Nat
  handle : dll_handle
deriving DecidableEq, Repr

/-- The program state: the cells allocated by `make_shared` (by number), the `library`
and `function` objects (`none` once destroyed), and the calls of `close_library` so far. -/
structure World where
  cells : List handle_object
  libs : List (Option library)
  funs : List (Option function)
  closed : List CloseCall
deriving DecidableEq, Repr

/-- The state of a program that has not created any object. -/
def World.init : World := ⟨[], [], [], []⟩

/-- The result of an operation: it returned in state `w`, or the program met undefined
behaviour in state `w` and went no further. -/
inductive Outcome where
  | done (w : World)
  | stuck (w : World)
deriving DecidableEq, Repr

/-- The state an outcome carries. -/
def Outcome.world : Outcome → World
  | .done w => w
  | .stuck w => w

/-- The live `library` object in slot `i`. -/
def World.lib (w : World) (i : Nat) : Option library :=
  match w.libs[i]? with
  | some (some l) => some l
  | _ => none

/-- The live `function` object in slot `k`. -/
def World.func (w : World) (k : Nat) : Option function :=
  match w.funs[k]? with
  | some (some f) => some f
  | _ => none

/-- Whether a slot holds a live `library` whose `shared_ptr` refers to cell `c`. -/
def owns (c : Nat) : Option library → Bool
  | some l => l.m_handle == some c
  | none => false

/-- The value of `shared_ptr::use_count` for cell `c`. -/
def use_count (w : World) (c : Nat) : Nat := w.libs.countP (owns c)

/-- The value of `weak_ptr::expired`. -/
def expired (w : World) : Option Nat → Bool
  | none => true
  | some c => use_count w c == 0

/-- The constructor `handle_object(const std::string& name)`. -/
def handle_object.new (N : Loader) (name : String) : handle_object :=
  ⟨N.open_library name⟩

/-- The member `handle_object::get`. -/
def handle_object.get (o : handle_object) : dll_handle := o.m_handle

/-- The state once a call `close_library(handle)`, made for cell `c`, is on record. -/
def recordClose (c : Nat) (handle : dll_handle) (w : World) : World :=
  { w with closed := w.closed ++ [⟨c, handle⟩] }

/-- The effect of `_detail::close_library(handle)`, called for cell `c`: the call is made
whatever the handle is; it returns for a handle that was opened and does not return for
the null handle. -/
def close_library (c : Nat) (handle : dll_handle) (w : World) : Outcome :=
  if handle = 0 then .stuck (recordClose c handle w) else .done (recordClose c handle w)

/-- The destructor `~handle_object`. -/
def handle_object.destroy (c : Nat) (o : handle_object) (w : World) : Outcome :=
  close_library c o.m_handle w

/-- What a `shared_ptr` does once it has stopped referring to `p`: the cell is destroyed
when no owner is left. -/
def relinquish (w : World) : Option Nat → Outcome
  | none => .done w
  | some c =>
    if use_count w c == 0 then
      match w.cells[c]? with
      | some o => handle_object.destroy c o w
      | none => .stuck w
    else .done w

/-- The constructor `library(const std::string& name)`; the new object takes the next slot. -/
def library.new (N : Loader) (name : String) (w : World) : World :=
  { w with
    cells := w.cells ++ [handle_object.new N name]
    libs := w.libs ++ [some ⟨some w.cells.length, name⟩] }

/-- The conversion `library::operator bool`. -/
def library.toBool (l : library) : Bool := l.m_handle.isSome

/-- The member `library::get_name`. -/
def library.get_name (l : library) : String := l.m_library_name

/-- The member `library::_purge`, on the object in slot `i`. -/
def library._purge (w : World) (i : Nat) : Outcome :=
  match w.lib i with
  | none => .stuck w
  | some l =>
    relinquish { w with libs := w.libs.set i (some { l with m_handle := none }) } l.m_handle

/-- The member `library::release`. -/
def library.release (w : World) (i : Nat) : Outcome := library._purge w i

/-- The destructor `~library`, after which slot `i` holds no object. -/
def library.destroy (w : World) (i : Nat) : Outcome :=
  match library._purge w i with
  | .stuck w1 => .stuck w1
  | .done w1 => .done { w1 with libs := w1.libs.set i none }

/-- The copy constructor `library(const library&)`; the copy takes the next slot. -/
def library.copy (w : World) (i : Nat) : Outcome :=
  match w.lib i with
  | none => .stuck w
  | some l => .done { w with libs := w.libs ++ [some l] }

/-- The copy assignment `library::operator=(const library&)`: slot `i` becomes a copy of slot `j`. -/
def library.assign (w : World) (i j : Nat) : Outcome :=
  match w.lib i, w.lib j with
  | some li, some lj => relinquish { w with libs := w.libs.set i (some lj) } li.m_handle
  | _, _ => .stuck w

/-- The member `library::swap`. -/
def library.swap (w : World) (i j : Nat) : Outcome :=
  match w.lib i, w.lib j with
  | some li, some lj => .done { w with libs := (w.libs.set i (some lj)).set j (some li) }
  | _, _ => .stuck w

/-- The member `library::get<Func>`; `none` when the call goes through an empty
`shared_ptr` or the object is not alive. -/
def library.get (N : Loader) (w : World) (i : Nat) (symbol : String) : Option function :=
  match w.lib i with
  | none => none
  | some l =>
    match l.m_handle with
    | none => none
    | some c =>
      match w.cells[c]? with
      | none => none
      | some o => some ⟨N.get_function o.get symbol, symbol, some c⟩

/-- The conversion `function::operator bool`. -/
def function.toBool (w : World) (f : function) : Bool :=
  f.m_func != 0 && !expired w f.m_handle

/-- The member `function::get`. -/
def function.get (f : function) : function_pointer := f.m_func

/-- The member `function::get_symbol`. -/
def function.get_symbol (f : function) : String := f.m_symbol

/-- The operations of a client program. -/
inductive Op where
  | construct (name : String)
  | copy (i : Nat)
  | assign (i j : Nat)
  | swap (i j : Nat)
  | release (i : Nat)
  | destroy (i : Nat)
  | get (i : Nat) (symbol : String)
  | fcopy (k : Nat)
  | fdestroy (k : Nat)
deriving DecidableEq, Repr

/-- One operation; a binding returned by `get` or copied takes the next slot of `funs`. -/
def step (N : Loader) (w : World) : Op → Outcome
  | .construct name => .done (library.new N name w)
  | .copy i => library.copy w i
  | .assign i j => library.assign w i j
  | .swap i j => library.swap w i j
  | .release i => library.release w i
  | .destroy i => library.destroy w i
  | .get i symbol =>
    match library.get N w i symbol with
    | none => .stuck w
    | some f => .done { w with funs := w.funs ++ [some f] }
  | .fcopy k =>
    match w.func k with
    | none => .stuck w
    | some f => .done { w with funs := w.funs ++ [some f] }
  | .fdestroy k =>
    match w.func k with
    | none => .stuck w
    | some _ => .done { w with funs := w.funs.set k none }

/-- A sequence of operations, from left to right, up to the first that does not return. -/
def run (N : Loader) (w : World) : List Op → Outcome
  | [] => .done w
  | op :: ops =>
    match step N w op with
    | .stuck w1 => .stuck w1
    | .done w1 => run N w1 ops

/-- The number of calls of `close_library` made for cell `c`. -/
def closeCount (w : World) (c : Nat) : Nat := w.closed.countP (fun e => e.cell == c)

/-- A loader that knows two libraries, with one function each. -/
def demoLoader : Loader where
  open_library := fun p => if p = "libm.so" then 7 else if p = "libz.so" then 9 else 0
  get_function := fun h s =>
    if h = 7 ∧ s = "cos" then 4096 else if h = 9 ∧ s = "crc32" then 8192 else 0

/-- Whether an operation is a `get` or a `release` on the handle of slot `i`. -/
def onHandle (i : Nat) : Op → Bool
  | .get j _ => j == i
  | .release j => j == i
  | _ => false

/-- The state between the moment a `shared_ptr` stops referring to `p` and the moment the
cell is destroyed if that was its last owner: every cell without an owner has been closed
once, except possibly the cell of `p`, which has not been closed yet. -/
structure PreInv (w : World) (p : Option Nat) : Prop where
  bound : ∀ l c, some l ∈ w.libs → l.m_handle = some c → c < w.cells.length
  pending : ∀ c, p = some c → c < w.cells.length
  count : ∀ c, closeCount w c =
    if c < w.cells.length ∧ use_count w c = 0 ∧ p ≠ some c then 1 else 0
  arg : ∀ e ∈ w.closed, w.cells[e.cell]? = some ⟨e.handle⟩

/-- The invariant of the states a program reaches: every `shared_ptr` refers to an allocated
cell, a cell has been closed once when it has no owner and never otherwise, and every
call of `close_library` was given the handle stored in its cell. -/
structure Inv (w : World) : Prop where
  bound : ∀ l c, some l ∈ w.libs → l.m_handle = some c → c < w.cells.length
  count : ∀ c, closeCount w c = if c < w.cells.length ∧ use_count w c = 0 then 1 else 0
  arg : ∀ e ∈ w.closed, w.cells[e.cell]? = some ⟨e.handle⟩

/-! ## Counting owners -/

theorem countP_set_add {α : Type} (p : α → Bool) (l : List α) (i : Nat) (a b : α)
    (h : l[i]? = some a) :
    (l.set i b).countP p + (if p a then 1 else 0) = l.countP p + (if p b then 1 else 0) := by
  induction l generalizing i with
  | nil => simp at h
  | cons x xs ih =>
    cases i with
    | zero =>
      simp at h
      subst h
      simp [List.countP_cons]
      omega
    | succ i =>
      simp at h
      have := ih i h
      simp [List.countP_cons]
      omega

theorem lib_eq_some {w : World} {i : Nat} {l : library} (h : w.lib i = some l) :
    w.libs[i]? = some (some l) := by
  unfold World.lib at h
  split at h
  · rename_i l1 heq
    simp at h
    rw [heq, h]
  · simp at h

theorem lib_mem {w : World} {i : Nat} {l : library} (h : w.lib i = some l) :
    some l ∈ w.libs := by
  have h1 := lib_eq_some h
  exact List.getElem?_mem h1

theorem use_count_pos_of_mem {w : World} {l : library} {c : Nat}
    (hm : some l ∈ w.libs) (hc : l.m_handle = some c) : 0 < use_count w c := by
  unfold use_count
  rw [List.countP_pos_iff]
  exact ⟨some l, hm, by simp [owns, hc]⟩

theorem use_count_eq_zero_iff (w : World) (c : Nat) :
    use_count w c = 0 ↔ ∀ l, some l ∈ w.libs → l.m_handle ≠ some c := by
  unfold use_count
  rw [List.countP_eq_zero]
  constructor
  · intro h l hl hc
    exact h (some l) hl (by simp [owns, hc])
  · intro h a ha
    cases a with
    | none => simp [owns]
    | some l =>
      have := h l ha
      simpa [owns] using this

/-! ## The destruction of a cell -/

theorem closeCount_record (w : World) (c : Nat) (h : dll_handle) (d : Nat) :
    closeCount (recordClose c h w) d = closeCount w d + (if c = d then 1 else 0) := by
  simp [closeCount, recordClose, List.countP_cons]

theorem close_library_done {c : Nat} {h : dll_handle} {w w1 : World}
    (hd : close_library c h w = .done w1) : h ≠ 0 ∧ w1 = recordClose c h w := by
  unfold close_library at hd
  split at hd
  · simp at hd
  · rename_i hne
    simp at hd
    exact ⟨hne, hd.symm⟩

/-- The outcome of `relinquish`, case by case. -/
theorem relinquish_cases (w : World) (p : Option Nat) :
    (relinquish w p = .done w ∧ ∀ c, p = some c → use_count w c ≠ 0) ∨
    (∃ c, p = some c ∧ use_count w c = 0 ∧ w.cells[c]? = none ∧ relinquish w p = .stuck w) ∨
    (∃ c o, p = some c ∧ use_count w c = 0 ∧ w.cells[c]? = some o ∧
      relinquish w p = close_library c o.m_handle w) := by
  cases p with
  | none => exact Or.inl ⟨rfl, by simp⟩
  | some c =>
    by_cases hu : use_count w c = 0
    · cases ho : w.cells[c]? with
      | none =>
        refine Or.inr (Or.inl ⟨c, rfl, hu, ho, ?_⟩)
        simp [relinquish, hu, ho]
      | some o =>
        refine Or.inr (Or.inr ⟨c, o, rfl, hu, ho, ?_⟩)
        simp [relinquish, hu, ho, handle_object.destroy]
    · refine Or.inl ⟨by simp [relinquish, hu], ?_⟩
      intro d hd
      simp at hd
      subst hd
      exact hu

theorem relinquish_frame {w w1 : World} {p : Option Nat} (h : relinquish w p = .done w1) :
    w1.cells = w.cells ∧ w1.libs = w.libs ∧ w1.funs = w.funs := by
  rcases relinquish_cases w p with ⟨he, -⟩ | ⟨c, -, -, -, he⟩ | ⟨c, o, -, -, -, he⟩
  · rw [he] at h
    simp at h
    subst h
    simp
  · rw [he] at h
    simp at h
  · rw [he] at h
    obtain ⟨-, hw⟩ := close_library_done h
    subst hw
    simp [recordClose]

theorem relinquish_grows {w w1 : World} {p : Option Nat} (h : relinquish w p = .done w1) :
    ∃ t, w1.closed = w.closed ++ t := by
  rcases relinquish_cases w p with ⟨he, -⟩ | ⟨c, -, -, -, he⟩ | ⟨c, o, -, -, -, he⟩
  · rw [he] at h
    simp at h
    subst h
    exact ⟨[], by simp⟩
  · rw [he] at h
    simp at h
  · rw [he] at h
    obtain ⟨-, hw⟩ := close_library_done h
    subst hw
    exact ⟨_, rfl⟩

/-- When `relinquish` returns, the invariant holds again. -/
theorem relinquish_inv {w w1 : World} {p : Option Nat} (h : PreInv w p)
    (hd : relinquish w p = .done w1) : Inv w1 := by
  rcases relinquish_cases w p with ⟨he, hnz⟩ | ⟨c, -, -, -, he⟩ | ⟨c, o, hp, hu, ho, he⟩
  · rw [he] at hd
    simp at hd
    subst hd
    refine ⟨h.bound, ?_, h.arg⟩
    intro d
    rw [h.count d]
    by_cases hpd : p = some d
    · have := hnz d hpd
      simp [this]
    · simp [hpd]
  · rw [he] at hd
    simp at hd
  · rw [he] at hd
    obtain ⟨-, hw⟩ := close_library_done hd
    subst hw hp
    have hc : c < w.cells.length := h.pending c rfl
    constructor
    · exact h.bound
    · intro d
      rw [closeCount_record, h.count d]
      show _ = if d < w.cells.length ∧ use_count w d = 0 then 1 else 0
      by_cases hcd : c = d
      · subst hcd
        simp [hc, hu]
      · have hdc : d ≠ c := fun e => hcd e.symm
        simp [hcd, hdc]
    · intro e he1
      simp only [recordClose, List.mem_append, List.mem_singleton] at he1
      show w.cells[e.cell]? = _
      rcases he1 with he1 | he1
      · exact h.arg e he1
      · subst he1
        simpa using ho

/-- Replacing the object of slot `i` by one whose pointer is empty or shared with a live
object leaves the state ready for the old pointer to be relinquished. -/
theorem set_preinv {w : World} {i : Nat} {li x : library} (h : Inv w) (hi : w.lib i = some li)
    (hx : x.m_handle = none ∨ ∃ l, some l ∈ w.libs ∧ l.m_handle = x.m_handle) :
    PreInv { w with libs := w.libs.set i (some x) } li.m_handle := by
  have hget := lib_eq_some hi
  have hmem := lib_mem hi
  constructor
  · intro l c hl hc
    show c < w.cells.length
    rcases List.mem_or_eq_of_mem_set hl with hl | hl
    · exact h.bound l c hl hc
    · simp at hl
      subst hl
      rcases hx with hx | ⟨l2, hl2, he⟩
      · rw [hx] at hc
        simp at hc
      · exact h.bound l2 c hl2 (he.trans hc)
  · intro c hc
    exact h.bound li c hmem hc
  · intro c
    show closeCount w c = if c < w.cells.length ∧
      (w.libs.set i (some x)).countP (owns c) = 0 ∧ li.m_handle ≠ some c then 1 else 0
    have hadd := countP_set_add (owns c) w.libs i (some li) (some x) hget
    have hcnt := h.count c
    unfold use_count at hcnt
    by_cases hold : li.m_handle = some c
    · have hpos := use_count_pos_of_mem hmem hold
      unfold use_count at hpos
      rw [hcnt]
      have h0 : ¬ List.countP (owns c) w.libs = 0 := by omega
      simp [hold, h0]
    · have ho : owns c (some li) = false := by simp [owns, hold]
      simp only [ho] at hadd
      by_cases hnew : x.m_handle = some c
      · have hpos : 0 < List.countP (owns c) w.libs := by
          rcases hx with hx | ⟨l2, hl2, he⟩
          · rw [hx] at hnew
            simp at hnew
          · exact use_count_pos_of_mem hl2 (he.trans hnew)
        have hn : owns c (some x) = true := by simp [owns, hnew]
        simp only [hn] at hadd
        rw [hcnt]
        have h0 : ¬ List.countP (owns c) w.libs = 0 := by omega
        have h1 : ¬ List.countP (owns c) (w.libs.set i (some x)) = 0 := by
          simp at hadd
          omega
        simp [h0, h1]
      · have hn : owns c (some x) = false := by simp [owns, hnew]
        simp only [hn] at hadd
        simp at hadd
        rw [hcnt, hadd]
        simp [hold]
  · exact h.arg

/-! ## Slots -/

theorem lib_lt {w : World} {i : Nat} {l : library} (h : w.lib i = some l) :
    i < w.libs.length := by
  have := lib_eq_some h
  by_contra hcon
  have : w.libs[i]? = none := by
    apply List.getElem?_eq_none
    omega
  simp_all

theorem lib_of_libs {w w1 : World} {i : Nat} {x : library}
    (h : w1.libs = w.libs.set i (some x)) (hi : i < w.libs.length) : w1.lib i = some x := by
  simp [World.lib, h, hi]

theorem lib_of_libs_ne {w w1 : World} {i j : Nat} {x : Option library}
    (h : w1.libs = w.libs.set i x) (hij : i ≠ j) : w1.lib j = w.lib j := by
  simp [World.lib, h, List.getElem?_set_ne hij]

/-- The owners of cell `d` after slot `i` gave up its pointer. -/
theorem use_count_purged {w w1 : World} {i : Nat} {l : library} (hi : w.lib i = some l)
    (h : w1.libs = w.libs.set i (some { l with m_handle := none })) (d : Nat) :
    use_count w1 d + (if l.m_handle = some d then 1 else 0) = use_count w d := by
  have hadd := countP_set_add (owns d) w.libs i (some l)
    (some { l with m_handle := none }) (lib_eq_some hi)
  simp only [use_count, h]
  simpa [owns] using hadd

/-- The owners of every cell are the same after an emptied slot is vacated. -/
theorem use_count_vacated {w1 w2 : World} {i : Nat} {name : String}
    (hi : w1.libs[i]? = some (some ⟨none, name⟩)) (h : w2.libs = w1.libs.set i none) (d : Nat) :
    use_count w2 d = use_count w1 d := by
  have hadd := countP_set_add (owns d) w1.libs i (some ⟨none, name⟩) none hi
  simp only [use_count, h]
  simpa [owns] using hadd

theorem toBool_congr {w w1 : World} {g : function}
    (h : ∀ d, g.m_handle = some d → use_count w1 d = use_count w d) :
    function.toBool w1 g = function.toBool w g := by
  unfold function.toBool expired
  cases hg : g.m_handle with
  | none => rfl
  | some d => simp [h d hg]

/-! ## The member `_purge` -/

theorem purge_eq {w : World} {i : Nat} {l : library} (hi : w.lib i = some l) :
    library._purge w i =
      relinquish { w with libs := w.libs.set i (some { l with m_handle := none }) }
        l.m_handle := by
  simp only [library._purge, hi]

theorem purge_live {w w1 : World} {i : Nat} (hd : library._purge w i = .done w1) :
    ∃ l, w.lib i = some l := by
  cases hl : w.lib i with
  | none => simp [library._purge, hl] at hd
  | some l => exact ⟨l, rfl⟩

theorem purge_frame {w w1 : World} {i : Nat} {l : library} (hi : w.lib i = some l)
    (hd : library._purge w i = .done w1) :
    w1.cells = w.cells ∧ w1.funs = w.funs ∧
      w1.libs = w.libs.set i (some { l with m_handle := none }) := by
  rw [purge_eq hi] at hd
  have h := relinquish_frame hd
  exact ⟨h.1, h.2.2, h.2.1⟩

theorem purge_grows {w w1 : World} {i : Nat} (hd : library._purge w i = .done w1) :
    (∃ t, w1.closed = w.closed ++ t) ∧ w1.cells = w.cells := by
  obtain ⟨l, hi⟩ := purge_live hd
  have hfr := purge_frame hi hd
  rw [purge_eq hi] at hd
  have hgr := relinquish_grows hd
  exact ⟨hgr, hfr.1⟩

theorem purge_inv {w w1 : World} {i : Nat} (h : Inv w)
    (hd : library._purge w i = .done w1) : Inv w1 := by
  obtain ⟨l, hi⟩ := purge_live hd
  rw [purge_eq hi] at hd
  exact relinquish_inv (set_preinv h hi (Or.inl rfl)) hd

/-- The member `_purge` returns unless it destroys a cell whose native handle is null. -/
theorem purge_done_iff {w : World} {i : Nat} {l : library} (h : Inv w)
    (hi : w.lib i = some l) :
    (∃ w1, library._purge w i = .done w1) ↔
      ¬ ∃ c o, l.m_handle = some c ∧ use_count w c = 1 ∧ w.cells[c]? = some o ∧
        o.m_handle = 0 := by
  rw [purge_eq hi]
  generalize hw0 : ({ w with libs := w.libs.set i (some { l with m_handle := none }) } : World)
    = w0
  have hl0 : w0.libs = w.libs.set i (some { l with m_handle := none }) := by
    rw [← hw0]
  have hc0 : w0.cells = w.cells := by
    rw [← hw0]
  have huse := use_count_purged hi hl0
  rcases relinquish_cases w0 l.m_handle with
    ⟨he, hnz⟩ | ⟨c, hp, -, ho, -⟩ | ⟨c, o, hp, hu, ho, he⟩
  · constructor
    · rintro - ⟨c, o, hc, h1, -, -⟩
      have := huse c
      simp [hc] at this
      exact hnz c hc (by omega)
    · intro _
      exact ⟨_, he⟩
  · exfalso
    have hlt := h.bound l c (lib_mem hi) hp
    have : w.cells[c]? = some w.cells[c] := by simp [hlt]
    rw [hc0, this] at ho
    simp at ho
  · have h1 : use_count w c = 1 := by
      have := huse c
      simp [hp] at this
      omega
    rw [hc0] at ho
    rw [he]
    by_cases hz : o.m_handle = 0
    · constructor
      · rintro ⟨w1, hw1⟩
        exact absurd (close_library_done hw1).1 (by simp [hz])
      · intro hn
        exact absurd ⟨c, o, hp, h1, ho, hz⟩ hn
    · constructor
      · rintro - ⟨c1, o1, hc1, -, ho1, hz1⟩
        rw [hp] at hc1
        simp at hc1
        subst hc1
        rw [ho] at ho1
        simp at ho1
        subst ho1
        exact hz hz1
      · intro _
        exact ⟨recordClose c o.m_handle w0, by simp [close_library, hz]⟩

/-! ## The destructor -/

theorem destroy_done {w w2 : World} {i : Nat} (hd : library.destroy w i = .done w2) :
    ∃ w1, library._purge w i = .done w1 ∧ w2 = { w1 with libs := w1.libs.set i none } := by
  unfold library.destroy at hd
  split at hd
  · simp at hd
  · rename_i w1 hw1
    simp at hd
    exact ⟨w1, hw1, hd.symm⟩

theorem destroy_of_purge {w w1 : World} {i : Nat} (hd : library._purge w i = .done w1) :
    library.destroy w i = .done { w1 with libs := w1.libs.set i none } := by
  simp only [library.destroy, hd]

/-! ## Every operation that returns keeps the invariant -/

theorem inv_init : Inv World.init := by
  constructor
  · intro l c hl
    simp [World.init] at hl
  · intro c
    simp [closeCount, World.init]
  · intro e he
    simp [World.init] at he

theorem inv_funs {w : World} (h : Inv w) (fs : List (Option function)) :
    Inv { w with funs := fs } :=
  ⟨h.bound, h.count, h.arg⟩

theorem new_inv (N : Loader) (name : String) {w : World} (h : Inv w) :
    Inv (library.new N name w) := by
  constructor
  · intro l c hl hc
    simp only [library.new, List.mem_append, List.mem_singleton, List.length_append,
      List.length_singleton] at hl ⊢
    rcases hl with hl | hl
    · have := h.bound l c hl hc
      omega
    · simp at hl
      subst hl
      simp at hc
      omega
  · intro c
    have hcnt := h.count c
    simp only [closeCount, use_count, library.new, List.countP_append, List.length_append,
      List.length_singleton] at hcnt ⊢
    rw [hcnt]
    by_cases hlt : c < w.cells.length
    · have hne : ¬ w.cells.length = c := by omega
      have hlt1 : c < w.cells.length + 1 := by omega
      simp [hlt, hlt1, owns, hne, List.countP_cons]
    · by_cases heq : c = w.cells.length
      · subst heq
        simp [owns, List.countP_cons]
      · have hlt1 : ¬ c < w.cells.length + 1 := by omega
        simp [hlt, hlt1]
  · intro e he
    have := h.arg e he
    simp only [library.new]
    have hlt : e.cell < w.cells.length := by
      by_contra hcon
      have : w.cells[e.cell]? = none := by
        apply List.getElem?_eq_none
        omega
      simp_all
    rw [List.getElem?_append_left hlt]
    exact this

theorem copy_inv {w w1 : World} {i : Nat} (h : Inv w) (hs : library.copy w i = .done w1) :
    Inv w1 := by
  unfold library.copy at hs
  split at hs
  · simp at hs
  · rename_i l hl
    simp at hs
    subst hs
    have hmem := lib_mem hl
    constructor
    · intro l1 c hl1 hc
      simp only [List.mem_append, List.mem_singleton] at hl1
      rcases hl1 with hl1 | hl1
      · exact h.bound l1 c hl1 hc
      · simp at hl1
        subst hl1
        exact h.bound l1 c hmem hc
    · intro c
      have hcnt := h.count c
      simp only [closeCount, use_count, List.countP_append] at hcnt ⊢
      rw [hcnt]
      by_cases ho : l.m_handle = some c
      · have hpos := use_count_pos_of_mem hmem ho
        unfold use_count at hpos
        have h0 : ¬ List.countP (owns c) w.libs = 0 := by omega
        simp [h0, owns, ho, List.countP_cons]
      · simp [owns, ho, List.countP_cons]
    · exact h.arg

theorem inv_vacate {w : World} {i : Nat} {name : String} (h : Inv w)
    (hi : w.libs[i]? = some (some ⟨none, name⟩)) :
    Inv { w with libs := w.libs.set i none } := by
  constructor
  · intro l c hl hc
    rcases List.mem_or_eq_of_mem_set hl with hl | hl
    · exact h.bound l c hl hc
    · simp at hl
  · intro c
    have hadd := countP_set_add (owns c) w.libs i (some ⟨none, name⟩) none hi
    have hcnt := h.count c
    simp only [closeCount, use_count] at hcnt ⊢
    simp [owns] at hadd
    rw [hcnt]
    simp only [hadd]
  · exact h.arg

theorem destroy_inv {w w2 : World} {i : Nat} (h : Inv w)
    (hs : library.destroy w i = .done w2) : Inv w2 := by
  obtain ⟨w1, hw1, hw2⟩ := destroy_done hs
  subst hw2
  obtain ⟨l, hl⟩ := purge_live hw1
  have hinv := purge_inv h hw1
  have hfr := purge_frame hl hw1
  have hslot : w1.libs[i]? = some (some ⟨none, l.m_library_name⟩) := by
    rw [hfr.2.2]
    simp [lib_lt hl]
  exact inv_vacate hinv hslot

theorem assign_inv {w w1 : World} {i j : Nat} (h : Inv w)
    (hs : library.assign w i j = .done w1) : Inv w1 := by
  unfold library.assign at hs
  split at hs
  · rename_i li lj hi hj
    exact relinquish_inv (set_preinv h hi (Or.inr ⟨lj, lib_mem hj, rfl⟩)) hs
  · simp at hs

theorem swap_inv {w w1 : World} {i j : Nat} (h : Inv w)
    (hs : library.swap w i j = .done w1) : Inv w1 := by
  unfold library.swap at hs
  split at hs
  · rename_i li lj hi hj
    simp at hs
    subst hs
    have hgi := lib_eq_some hi
    have hgj := lib_eq_some hj
    have hgj1 : (w.libs.set i (some lj))[j]? = some (some lj) := by
      rw [List.getElem?_set]
      split
      · rename_i hij
        subst hij
        simp [lib_lt hi]
      · exact hgj
    constructor
    · intro l c hl hc
      rcases List.mem_or_eq_of_mem_set hl with hl | hl
      · rcases List.mem_or_eq_of_mem_set hl with hl | hl
        · exact h.bound l c hl hc
        · simp at hl
          subst hl
          exact h.bound l c (lib_mem hj) hc
      · simp at hl
        subst hl
        exact h.bound l c (lib_mem hi) hc
    · intro c
      have h1 := countP_set_add (owns c) w.libs i (some li) (some lj) hgi
      have h2 := countP_set_add (owns c) (w.libs.set i (some lj)) j (some lj) (some li) hgj1
      have hcnt := h.count c
      simp only [closeCount, use_count] at hcnt ⊢
      have he : List.countP (owns c) ((w.libs.set i (some lj)).set j (some li))
          = List.countP (owns c) w.libs := by omega
      rw [hcnt]
      simp only [he]
    · exact h.arg
  · simp at hs

theorem step_inv {N : Loader} {w w1 : World} {op : Op} (h : Inv w)
    (hs : step N w op = .done w1) : Inv w1 := by
  cases op with
  | construct name =>
    simp [step] at hs
    subst hs
    exact new_inv N name h
  | copy i => exact copy_inv h hs
  | assign i j => exact assign_inv h hs
  | swap i j => exact swap_inv h hs
  | release i => exact purge_inv h hs
  | destroy i => exact destroy_inv h hs
  | get i symbol =>
    simp only [step] at hs
    split at hs
    · simp at hs
    · simp at hs
      subst hs
      exact inv_funs h _
  | fcopy k =>
    simp only [step] at hs
    split at hs
    · simp at hs
    · simp at hs
      subst hs
      exact inv_funs h _
  | fdestroy k =>
    simp only [step] at hs
    split at hs
    · simp at hs
    · simp at hs
      subst hs
      exact inv_funs h _

theorem run_inv {N : Loader} {ops : List Op} {w w1 : World} (h : Inv w)
    (hr : run N w ops = .done w1) : Inv w1 := by
  induction ops generalizing w with
  | nil =>
    simp [run] at hr
    subst hr
    exact h
  | cons op ops ih =>
    simp only [run] at hr
    split at hr
    · simp at hr
    · rename_i w2 hw2
      exact ih (step_inv h hw2) hr

/-- An operation that returns only adds calls of `close_library` and only adds cells. -/
theorem step_grows {N : Loader} {w w1 : World} {op : Op} (h : step N w op = .done w1) :
    (∃ t, w1.closed = w.closed ++ t) ∧ ∃ t, w1.cells = w.cells ++ t := by
  cases op with
  | construct name =>
    simp [step] at h
    subst h
    exact ⟨⟨[], by simp [library.new]⟩, ⟨_, rfl⟩⟩
  | copy i =>
    simp only [step, library.copy] at h
    split at h
    · simp at h
    · simp at h
      subst h
      exact ⟨⟨[], by simp⟩, ⟨[], by simp⟩⟩
  | assign i j =>
    simp only [step, library.assign] at h
    split at h
    · have h1 := relinquish_grows h
      have h2 := (relinquish_frame h).1
      exact ⟨h1, ⟨[], by simpa using h2⟩⟩
    · simp at h
  | swap i j =>
    simp only [step, library.swap] at h
    split at h
    · simp at h
      subst h
      exact ⟨⟨[], by simp⟩, ⟨[], by simp⟩⟩
    · simp at h
  | release i =>
    have := purge_grows h
    exact ⟨this.1, ⟨[], by simp [this.2]⟩⟩
  | destroy i =>
    obtain ⟨w2, hw2, he⟩ := destroy_done h
    subst he
    have := purge_grows hw2
    exact ⟨this.1, ⟨[], by simp [this.2]⟩⟩
  | get i symbol =>
    simp only [step] at h
    split at h
    · simp at h
    · simp at h
      subst h
      exact ⟨⟨[], by simp⟩, ⟨[], by simp⟩⟩
  | fcopy k =>
    simp only [step] at h
    split at h
    · simp at h
    · simp at h
      subst h
      exact ⟨⟨[], by simp⟩, ⟨[], by simp⟩⟩
  | fdestroy k =>
    simp only [step] at h
    split at h
    · simp at h
    · simp at h
      subst h
      exact ⟨⟨[], by simp⟩, ⟨[], by simp⟩⟩

/-- A `get` or a `release` on slot `i` that returns leaves the name stored in slot `i`
as it is. -/
theorem step_onHandle_name {N : Loader} {w w1 : World} {i : Nat} {op : Op} {p : String}
    (hop : onHandle i op = true) (hs : step N w op = .done w1)
    (hn : (w.lib i).map library.get_name = some p) :
    (w1.lib i).map library.get_name = some p := by
  cases op with
  | get j symbol =>
    simp only [step] at hs
    split at hs
    · simp at hs
    · simp at hs
      subst hs
      exact hn
  | release j =>
    simp [onHandle] at hop
    subst hop
    obtain ⟨l, hl⟩ := purge_live hs
    have hlibs := (purge_frame hl hs).2.2
    rw [lib_of_libs hlibs (lib_lt hl)]
    rw [hl] at hn
    exact hn
  | construct name => simp [onHandle] at hop
  | copy j => simp [onHandle] at hop
  | assign j k => simp [onHandle] at hop
  | swap j k => simp [onHandle] at hop
  | destroy j => simp [onHandle] at hop
  | fcopy k => simp [onHandle] at hop
  | fdestroy k => simp [onHandle] at hop

theorem run_onHandle_name {N : Loader} {ops : List Op} {w w1 : World} {i : Nat} {p : String}
    (hops : ∀ op ∈ ops, onHandle i op = true) (hr : run N w ops = .done w1)
    (hn : (w.lib i).map library.get_name = some p) :
    (w1.lib i).map library.get_name = some p := by
  induction ops generalizing w with
  | nil =>
    simp [run] at hr
    subst hr
    exact hn
  | cons op ops ih =>
    simp only [run] at hr
    split at hr
    · simp at hr
    · rename_i w2 hw2
      exact ih (fun o ho => hops o (List.mem_cons_of_mem _ ho)) hr
        (step_onHandle_name (hops op (List.mem_cons_self _ _)) hw2 hn)

/-! ## The properties -/

/-- C1 (the code at a path that cannot be opened): with a loader that returns the null
handle for "missing.so", the constructor still allocates a cell, so the `shared_ptr` of the
new `library` is not empty and `operator bool` is true although the stored native handle
is null. The same holds for every loader, path and state: the validity check of a newly
constructed handle is true whatever `open_library` returned. -/
theorem C1_failed_open_reports_valid :
    demoLoader.open_library "missing.so" = 0 ∧
    (library.new demoLoader "missing.so" World.init).cells = [⟨0⟩] ∧
    (library.new demoLoader "missing.so" World.init).lib 0 = some ⟨some 0, "missing.so"⟩ ∧
    ((library.new demoLoader "missing.so" World.init).lib 0).map library.toBool = some true ∧
    ∀ (N : Loader) (name : String) (w : World),
      ((library.new N name w).lib w.libs.length).map library.toBool = some true := by
  refine ⟨by decide, by decide, by decide, by decide, ?_⟩
  intro N name w
  simp [World.lib, library.new, library.toBool]

/-- C2 (as stated, refuted): a library is opened, the handle is copied and `release` is
called on the original; the validity check of the copy is still true, not false, and
`close_library` has not been called. -/
theorem C2_copy_survives_release :
    ∃ w, run demoLoader World.init [.construct "libm.so", .copy 0, .release 0] = .done w ∧
      (w.lib 0).map library.toBool = some false ∧
      (w.lib 1).map library.toBool = some true ∧
      ¬ ((w.lib 1).map library.toBool = some false) ∧
      w.closed = [] :=
  ⟨⟨[⟨7⟩], [some ⟨none, "libm.so"⟩, some ⟨some 0, "libm.so"⟩], [], []⟩, by decide⟩

/-- C2 (amended): when two distinct live handles share a cell, `release` on one of them
returns, makes the validity check of that handle false and leaves the other handle
unchanged with a true validity check; `close_library` is not called and the cell is not
expired. -/
theorem C2_release_drops_one_share (w : World) (i j : Nat) (li lj : library) (c : Nat)
    (hij : i ≠ j) (hi : w.lib i = some li) (hj : w.lib j = some lj)
    (hci : li.m_handle = some c) (hcj : lj.m_handle = some c) :
    ∃ w1, library.release w i = .done w1 ∧
      (w1.lib i).map library.toBool = some false ∧
      w1.lib j = some lj ∧ lj.toBool = true ∧
      w1.closed = w.closed ∧ expired w1 (some c) = false := by
  let w0 : World := { w with libs := w.libs.set i (some { li with m_handle := none }) }
  have hl0 : w0.libs = w.libs.set i (some { li with m_handle := none }) := rfl
  have hj0 : w0.lib j = some lj := by
    rw [← hj]
    exact lib_of_libs_ne hl0 hij
  have hpos : 0 < use_count w0 c := use_count_pos_of_mem (lib_mem hj0) hcj
  have hne : ¬ use_count w0 c = 0 := by omega
  refine ⟨w0, ?_, ?_, hj0, by simp [library.toBool, hcj], rfl, ?_⟩
  · simp only [library.release, library._purge, hi, hci, relinquish]
    simp [w0, hne]
  · rw [lib_of_libs hl0 (lib_lt hi)]
    rfl
  · simp [expired, hne]

/-- C2 (witness): the amended property at the state reached by opening "libm.so" and
copying the handle. -/
theorem C2_release_drops_one_share_witness :
    ∃ w1, library.release ⟨[⟨7⟩], [some ⟨some 0, "libm.so"⟩, some ⟨some 0, "libm.so"⟩], [], []⟩ 0
        = .done w1 ∧
      (w1.lib 0).map library.toBool = some false ∧
      w1.lib 1 = some ⟨some 0, "libm.so"⟩ ∧ library.toBool ⟨some 0, "libm.so"⟩ = true ∧
      w1.closed = [] ∧ expired w1 (some 0) = false :=
  C2_release_drops_one_share
    ⟨[⟨7⟩], [some ⟨some 0, "libm.so"⟩, some ⟨some 0, "libm.so"⟩], [], []⟩ 0 1
    ⟨some 0, "libm.so"⟩ ⟨some 0, "libm.so"⟩ 0 (by decide) (by decide) (by decide) rfl rfl

/-- C3: in every state the validity check of a binding is true exactly when its stored
address is not null and the cell its `weak_ptr` observes is owned by at least one live
`library` object. -/
theorem C3_binding_valid_iff (w : World) (f : function) :
    function.toBool w f = true ↔
      f.m_func ≠ 0 ∧ ∃ c i l, f.m_handle = some c ∧ w.lib i = some l ∧ l.m_handle = some c := by
  unfold function.toBool expired
  cases hf : f.m_handle with
  | none => simp
  | some c =>
    have hz := use_count_eq_zero_iff w c
    constructor
    · intro h
      simp at h
      refine ⟨h.1, c, ?_⟩
      have hnz : ¬ use_count w c = 0 := h.2
      rw [hz] at hnz
      push_neg at hnz
      obtain ⟨l, hl, hc⟩ := hnz
      obtain ⟨i, hi⟩ := List.getElem?_of_mem hl
      exact ⟨i, l, rfl, by simp [World.lib, hi], hc⟩
    · rintro ⟨h0, c1, i, l, hc1, hi, hl⟩
      simp at hc1
      subst hc1
      have hpos := use_count_pos_of_mem (lib_mem hi) hl
      have hnz : ¬ use_count w c = 0 := by omega
      simp [h0, hnz]

/-- C4: in a state a program reaches, let slot `i` hold the only owner of cell `c` and let
`get` on it return a binding `f` with a non-null address. Then `f` is valid; in the state
in which `release` of slot `i` returns, and likewise for its destruction, `f` is invalid,
the stored bindings are what they were, and the validity check of every binding that
observes another cell is what it was (so a valid one stays valid). The release and the
destruction return exactly when the native handle of the cell is not null, that is, when
the library was opened. -/
theorem C4_last_owner_gone_invalidates (N : Loader) (ops : List Op) (w : World) (i : Nat)
    (l : library) (c : Nat) (symbol : String) (f : function)
    (hreach : run N World.init ops = .done w)
    (hi : w.lib i = some l) (hc : l.m_handle = some c) (hlast : use_count w c = 1)
    (hget : library.get N w i symbol = some f) (hf : f.get ≠ 0) :
    function.toBool w f = true ∧
    (∀ w1, library.release w i = .done w1 →
      function.toBool w1 f = false ∧ w1.funs = w.funs ∧
      ∀ g : function, g.m_handle ≠ some c → function.toBool w1 g = function.toBool w g) ∧
    (∀ w2, library.destroy w i = .done w2 →
      function.toBool w2 f = false ∧ w2.funs = w.funs ∧
      ∀ g : function, g.m_handle ≠ some c → function.toBool w2 g = function.toBool w g) ∧
    (∀ o, w.cells[c]? = some o →
      ((∃ w1, library.release w i = .done w1) ↔ o.m_handle ≠ 0) ∧
      ((∃ w2, library.destroy w i = .done w2) ↔ o.m_handle ≠ 0)) := by
  have hinv : Inv w := run_inv inv_init hreach
  have hfc : f.m_handle = some c := by
    simp only [library.get, hi, hc] at hget
    split at hget
    · simp at hget
    · simp at hget
      rw [← hget]
  have key : ∀ w1, library._purge w i = .done w1 →
      function.toBool w1 f = false ∧ w1.funs = w.funs ∧
      (∀ d, use_count w1 d + (if l.m_handle = some d then 1 else 0) = use_count w d) ∧
      w1.libs[i]? = some (some ⟨none, l.m_library_name⟩) := by
    intro w1 hw1
    obtain ⟨-, hfuns, hlibs⟩ := purge_frame hi hw1
    have huse := use_count_purged hi hlibs
    have hzero : use_count w1 c = 0 := by
      have := huse c
      simp [hc] at this
      omega
    refine ⟨by simp [function.toBool, expired, hfc, hzero], hfuns, huse, ?_⟩
    rw [hlibs]
    simp [lib_lt hi]
  have other : ∀ w1 : World,
      (∀ d, use_count w1 d + (if l.m_handle = some d then 1 else 0) = use_count w d) →
      ∀ g : function, g.m_handle ≠ some c → function.toBool w1 g = function.toBool w g := by
    intro w1 huse g hg
    apply toBool_congr
    intro d hd
    have := huse d
    have hne : ¬ l.m_handle = some d := by
      intro he
      apply hg
      rw [hd, ← he, hc]
    simpa [hne] using this
  have hret := purge_done_iff hinv hi
  refine ⟨?_, ?_, ?_, ?_⟩
  · have hf1 : ¬ f.m_func = 0 := hf
    simp [function.toBool, expired, hfc, hlast, hf1]
  · intro w1 hw1
    obtain ⟨h1, h2, h3, -⟩ := key w1 hw1
    exact ⟨h1, h2, other w1 h3⟩
  · intro w2 hw2
    obtain ⟨w1, hw1, he⟩ := destroy_done hw2
    obtain ⟨h1, h2, h3, h4⟩ := key w1 hw1
    have hl2 : w2.libs = w1.libs.set i none := by
      rw [he]
    have hvac := use_count_vacated h4 hl2
    have h3b : ∀ d, use_count w2 d + (if l.m_handle = some d then 1 else 0)
        = use_count w d := by
      intro d
      rw [hvac d]
      exact h3 d
    have hzero : use_count w2 c = 0 := by
      have := h3b c
      simp [hc] at this
      omega
    refine ⟨by simp [function.toBool, expired, hfc, hzero], ?_, other w2 h3b⟩
    rw [he]
    exact h2
  · intro o ho
    have hiff : (∃ w1, library._purge w i = .done w1) ↔ o.m_handle ≠ 0 := by
      rw [hret]
      constructor
      · intro hn hz
        exact hn ⟨c, o, hc, hlast, ho, hz⟩
      · rintro hnz ⟨c1, o1, hc1, -, ho1, hz1⟩
        rw [hc] at hc1
        simp at hc1
        subst hc1
        rw [ho] at ho1
        simp at ho1
        subst ho1
        exact hnz hz1
    refine ⟨hiff, ?_⟩
    rw [← hiff]
    constructor
    · rintro ⟨w2, hw2⟩
      obtain ⟨w1, hw1, -⟩ := destroy_done hw2
      exact ⟨w1, hw1⟩
    · rintro ⟨w1, hw1⟩
      exact ⟨_, destroy_of_purge hw1⟩

/-- C4 (witness): two libraries are opened and `cos` is resolved from the first; the
release and the destruction of the first handle return and invalidate the binding, and a
binding resolved from the second library stays valid. -/
theorem C4_last_owner_gone_invalidates_witness :
    function.toBool ⟨[⟨7⟩, ⟨9⟩], [some ⟨some 0, "libm.so"⟩, some ⟨some 1, "libz.so"⟩], [], []⟩
      ⟨4096, "cos", some 0⟩ = true ∧
    library.release ⟨[⟨7⟩, ⟨9⟩], [some ⟨some 0, "libm.so"⟩, some ⟨some 1, "libz.so"⟩], [], []⟩ 0
      = .done ⟨[⟨7⟩, ⟨9⟩], [some ⟨none, "libm.so"⟩, some ⟨some 1, "libz.so"⟩], [], [⟨0, 7⟩]⟩ ∧
    function.toBool
      ⟨[⟨7⟩, ⟨9⟩], [some ⟨none, "libm.so"⟩, some ⟨some 1, "libz.so"⟩], [], [⟨0, 7⟩]⟩
      ⟨4096, "cos", some 0⟩ = false ∧
    function.toBool
      ⟨[⟨7⟩, ⟨9⟩], [some ⟨none, "libm.so"⟩, some ⟨some 1, "libz.so"⟩], [], [⟨0, 7⟩]⟩
      ⟨8192, "crc32", some 1⟩ = true ∧
    library.destroy ⟨[⟨7⟩, ⟨9⟩], [some ⟨some 0, "libm.so"⟩, some ⟨some 1, "libz.so"⟩], [], []⟩ 0
      = .done ⟨[⟨7⟩, ⟨9⟩], [none, some ⟨some 1, "libz.so"⟩], [], [⟨0, 7⟩]⟩ ∧
    function.toBool ⟨[⟨7⟩, ⟨9⟩], [none, some ⟨some 1, "libz.so"⟩], [], [⟨0, 7⟩]⟩
      ⟨4096, "cos", some 0⟩ = false :=
  have h := C4_last_owner_gone_invalidates demoLoader
    [.construct "libm.so", .construct "libz.so"]
    ⟨[⟨7⟩, ⟨9⟩], [some ⟨some 0, "libm.so"⟩, some ⟨some 1, "libz.so"⟩], [], []⟩ 0
    ⟨some 0, "libm.so"⟩ 0 "cos" ⟨4096, "cos", some 0⟩
    (by decide) (by decide) rfl (by decide) (by decide) (by decide)
  ⟨h.1, by decide, (h.2.1 _ (by decide)).1,
    ((h.2.1 _ (by decide)).2.2 ⟨8192, "crc32", some 1⟩ (by decide)).trans (by decide),
    by decide, (h.2.2.1 _ (by decide)).1⟩

/-- C5: in a state a program reaches, `get` on a live handle whose validity check is true
returns a binding whose address is what `get_function` returned for the native handle of
the cell and the symbol, whose symbol is the requested name, and whose validity check is
true exactly when that address is not null. -/
theorem C5_get_on_valid_handle (N : Loader) (ops : List Op) (w : World) (i : Nat)
    (l : library) (symbol : String)
    (hreach : run N World.init ops = .done w)
    (hi : w.lib i = some l) (hv : l.toBool = true) :
    ∃ c o f, l.m_handle = some c ∧ w.cells[c]? = some o ∧
      library.get N w i symbol = some f ∧
      f.get = N.get_function o.m_handle symbol ∧ f.get_symbol = symbol ∧
      (function.toBool w f = true ↔ N.get_function o.m_handle symbol ≠ 0) := by
  have hinv : Inv w := run_inv inv_init hreach
  cases hc : l.m_handle with
  | none => simp [library.toBool, hc] at hv
  | some c =>
    have hlt := hinv.bound l c (lib_mem hi) hc
    have ho : w.cells[c]? = some w.cells[c] := by simp [hlt]
    have hpos := use_count_pos_of_mem (lib_mem hi) hc
    have hnz : ¬ use_count w c = 0 := by omega
    refine ⟨c, w.cells[c], ⟨N.get_function w.cells[c].m_handle symbol, symbol, some c⟩,
      rfl, ho, ?_, rfl, rfl, ?_⟩
    · simp [library.get, hi, hc, hlt, handle_object.get]
    · simp [function.toBool, expired, hnz]

/-- C5 (witness): resolving `cos` from an open "libm.so". -/
theorem C5_get_on_valid_handle_witness :
    (∃ c o f, (⟨some 0, "libm.so"⟩ : library).m_handle = some c ∧
      (⟨[⟨7⟩], [some ⟨some 0, "libm.so"⟩], [], []⟩ : World).cells[c]? = some o ∧
      library.get demoLoader ⟨[⟨7⟩], [some ⟨some 0, "libm.so"⟩], [], []⟩ 0 "cos" = some f ∧
      f.get = demoLoader.get_function o.m_handle "cos" ∧ f.get_symbol = "cos" ∧
      (function.toBool ⟨[⟨7⟩], [some ⟨some 0, "libm.so"⟩], [], []⟩ f = true ↔
        demoLoader.get_function o.m_handle "cos" ≠ 0)) ∧
    demoLoader.get_function 7 "cos" = 4096 :=
  ⟨C5_get_on_valid_handle demoLoader [.construct "libm.so"]
    ⟨[⟨7⟩], [some ⟨some 0, "libm.so"⟩], [], []⟩ 0 ⟨some 0, "libm.so"⟩ "cos"
    (by decide) (by decide) (by decide), by decide⟩

/-- C6: in a state a program reaches, take any live handle. In the state in which
`release` on it returns, its validity check is false, and a second `release` on it
returns and gives the same state. The first `release` returns unless the handle is the
last owner of a cell whose native handle is null (a library that was not opened), in
which case `close_library` is called with the null handle and does not return. -/
theorem C6_release_idempotent (N : Loader) (ops : List Op) (w : World) (i : Nat) (l : library)
    (hreach : run N World.init ops = .done w) (hi : w.lib i = some l) :
    (∀ w1, library.release w i = .done w1 →
      (w1.lib i).map library.toBool = some false ∧ library.release w1 i = .done w1) ∧
    ((∃ w1, library.release w i = .done w1) ↔
      ¬ ∃ c o, l.m_handle = some c ∧ use_count w c = 1 ∧ w.cells[c]? = some o ∧
        o.m_handle = 0) := by
  have hinv : Inv w := run_inv inv_init hreach
  refine ⟨?_, purge_done_iff hinv hi⟩
  intro w1 hw1
  have hlibs := (purge_frame hi hw1).2.2
  have hl1 : w1.lib i = some { l with m_handle := none } := lib_of_libs hlibs (lib_lt hi)
  refine ⟨?_, ?_⟩
  · rw [hl1]
    rfl
  · simp only [library.release, library._purge, hl1, relinquish]
    have hset : w1.libs.set i (some { l with m_handle := none }) = w1.libs := by
      rw [hlibs, List.set_set]
    rw [hset]

/-- C6 (witness): releasing twice a handle of "libm.so" that has a copy. -/
theorem C6_release_idempotent_witness :
    library.release
        ⟨[⟨7⟩], [some ⟨some 0, "libm.so"⟩, some ⟨some 0, "libm.so"⟩], [], []⟩ 1
      = .done ⟨[⟨7⟩], [some ⟨some 0, "libm.so"⟩, some ⟨none, "libm.so"⟩], [], []⟩ ∧
    ((⟨[⟨7⟩], [some ⟨some 0, "libm.so"⟩, some ⟨none, "libm.so"⟩], [], []⟩ : World).lib 1).map
      library.toBool = some false ∧
    library.release
        ⟨[⟨7⟩], [some ⟨some 0, "libm.so"⟩, some ⟨none, "libm.so"⟩], [], []⟩ 1
      = .done ⟨[⟨7⟩], [some ⟨some 0, "libm.so"⟩, some ⟨none, "libm.so"⟩], [], []⟩ :=
  have h := (C6_release_idempotent demoLoader [.construct "libm.so", .copy 0]
    ⟨[⟨7⟩], [some ⟨some 0, "libm.so"⟩, some ⟨some 0, "libm.so"⟩], [], []⟩ 1
    ⟨some 0, "libm.so"⟩ (by decide) (by decide)).1
    ⟨[⟨7⟩], [some ⟨some 0, "libm.so"⟩, some ⟨none, "libm.so"⟩], [], []⟩ (by decide)
  ⟨by decide, h.1, h.2⟩

/-- C7 (the code on a released handle): after "libm.so" is opened and the handle released,
its validity check is false and `get` on it goes through the empty `shared_ptr`: it
returns no binding at all, and the program goes no further. -/
theorem C7_get_after_release_faults :
    ∃ w, run demoLoader World.init [.construct "libm.so", .release 0] = .done w ∧
      (w.lib 0).map library.toBool = some false ∧
      library.get demoLoader w 0 "cos" = none ∧
      run demoLoader World.init [.construct "libm.so", .release 0, .get 0 "cos"] = .stuck w :=
  ⟨⟨[⟨7⟩], [some ⟨none, "libm.so"⟩], [], [⟨0, 7⟩]⟩, by decide⟩

/-- C8: in a state a program reaches, the calls of `close_library` made for an allocated
cell all carry the native handle stored in that cell, and their number is one when the
cell has no owner and zero when it has one. Across one further operation that number
grows by one exactly when the operation takes the cell from having an owner to having
none, and does not change otherwise. -/
theorem C8_closed_exactly_once (N : Loader) (ops : List Op) (w : World) (c : Nat)
    (o : handle_object)
    (hreach : run N World.init ops = .done w) (hc : w.cells[c]? = some o) :
    w.closed.count ⟨c, o.m_handle⟩ = (if use_count w c = 0 then 1 else 0) ∧
    closeCount w c = w.closed.count ⟨c, o.m_handle⟩ ∧
    ∀ op w1, step N w op = .done w1 →
      closeCount w1 c =
        closeCount w c + (if 0 < use_count w c ∧ use_count w1 c = 0 then 1 else 0) := by
  have hinv : Inv w := run_inv inv_init hreach
  have hlt : c < w.cells.length := by
    by_contra hcon
    have : w.cells[c]? = none := by
      apply List.getElem?_eq_none
      omega
    simp_all
  have hcnt := hinv.count c
  have hsame : w.closed.count ⟨c, o.m_handle⟩ = closeCount w c := by
    rw [List.count_eq_countP]
    unfold closeCount
    apply List.countP_congr
    intro e he
    constructor
    · intro h
      have : e = ⟨c, o.m_handle⟩ := by simpa using h
      simp [this]
    · intro h
      have hcell : e.cell = c := by simpa using h
      have harg := hinv.arg e he
      rw [hcell, hc] at harg
      have ho : o = ⟨e.handle⟩ := by simpa using harg
      have : e = ⟨c, o.m_handle⟩ := by
        cases e
        simp_all
      simp [this]
  refine ⟨?_, hsame.symm, ?_⟩
  · rw [hsame, hcnt]
    simp [hlt]
  · intro op w1 hs
    have hinv1 : Inv w1 := step_inv hinv hs
    obtain ⟨⟨t, ht⟩, ⟨u, hu⟩⟩ := step_grows hs
    have hlt1 : c < w1.cells.length := by
      rw [hu, List.length_append]
      omega
    have hcnt1 := hinv1.count c
    have hmono : closeCount w c ≤ closeCount w1 c := by
      simp only [closeCount, ht, List.countP_append]
      omega
    simp only [hlt, hlt1, true_and] at hcnt hcnt1
    rw [hcnt, hcnt1] at hmono
    rw [hcnt, hcnt1]
    by_cases ha : use_count w c = 0
    · by_cases hb : use_count w1 c = 0
      · simp [ha, hb]
      · simp [ha, hb] at hmono
    · have hpos : 0 < use_count w c := by omega
      by_cases hb : use_count w1 c = 0
      · simp [ha, hb, hpos]
      · simp [ha, hb]

/-- C8 (witness): "libm.so" is opened, the handle copied and swapped with the copy, a
symbol resolved, the copy released; the cell is closed by the destruction of the last
handle. -/
theorem C8_closed_exactly_once_witness :
    (⟨[⟨7⟩], [some ⟨some 0, "libm.so"⟩, some ⟨none, "libm.so"⟩], [some ⟨4096, "cos", some 0⟩],
        []⟩ : World).closed.count ⟨0, 7⟩ = 0 ∧
    step demoLoader
      ⟨[⟨7⟩], [some ⟨some 0, "libm.so"⟩, some ⟨none, "libm.so"⟩], [some ⟨4096, "cos", some 0⟩], []⟩
      (.destroy 0)
      = .done ⟨[⟨7⟩], [none, some ⟨none, "libm.so"⟩], [some ⟨4096, "cos", some 0⟩], [⟨0, 7⟩]⟩ ∧
    closeCount
      ⟨[⟨7⟩], [none, some ⟨none, "libm.so"⟩], [some ⟨4096, "cos", some 0⟩], [⟨0, 7⟩]⟩ 0 =
      closeCount
        ⟨[⟨7⟩], [some ⟨some 0, "libm.so"⟩, some ⟨none, "libm.so"⟩], [some ⟨4096, "cos", some 0⟩],
          []⟩ 0 + 1 :=
  have h := C8_closed_exactly_once demoLoader
    [.construct "libm.so", .copy 0, .swap 0 1, .get 1 "cos", .release 1]
    ⟨[⟨7⟩], [some ⟨some 0, "libm.so"⟩, some ⟨none, "libm.so"⟩], [some ⟨4096, "cos", some 0⟩], []⟩
    0 ⟨7⟩ (by decide) (by decide)
  ⟨h.1, by decide, h.2.2 (.destroy 0) _ (by decide)⟩

/-- C9 (the code at a path that cannot be opened): with a loader that returns the null
handle for "missing.so", the destruction of the handle, and likewise its release, calls
`close_library` with the null handle; that call does not return. -/
theorem C9_null_handle_is_closed :
    demoLoader.open_library "missing.so" = 0 ∧
    (run demoLoader World.init [.construct "missing.so", .destroy 0]).world.closed
      = [⟨0, 0⟩] ∧
    (run demoLoader World.init [.construct "missing.so", .release 0]).world.closed
      = [⟨0, 0⟩] ∧
    run demoLoader World.init [.construct "missing.so", .destroy 0]
      = .stuck ⟨[⟨0⟩], [some ⟨none, "missing.so"⟩], [], [⟨0, 0⟩]⟩ ∧
    run demoLoader World.init [.construct "missing.so", .release 0]
      = .stuck ⟨[⟨0⟩], [some ⟨none, "missing.so"⟩], [], [⟨0, 0⟩]⟩ := by
  decide

/-- C10: after a handle is constructed from the path `p`, in any state, every sequence of
`get` and `release` calls on that handle that runs leaves `get_name` equal to `p`; the
empty sequence gives the name right after construction. -/
theorem C10_get_name_is_path (N : Loader) (w : World) (p : String) (ops : List Op) (w1 : World)
    (hops : ∀ op ∈ ops, onHandle w.libs.length op = true)
    (hrun : run N (library.new N p w) ops = .done w1) :
    (w1.lib w.libs.length).map library.get_name = some p := by
  apply run_onHandle_name hops hrun
  simp [World.lib, library.new, library.get_name]

/-- C10 (witness): a resolve, a release and a second release on a handle of "libz.so". -/
theorem C10_get_name_is_path_witness :
    run demoLoader (library.new demoLoader "libz.so" World.init)
        [.get 0 "crc32", .release 0, .release 0]
      = .done ⟨[⟨9⟩], [some ⟨none, "libz.so"⟩], [some ⟨8192, "crc32", some 0⟩], [⟨0, 9⟩]⟩ ∧
    ((⟨[⟨9⟩], [some ⟨none, "libz.so"⟩], [some ⟨8192, "crc32", some 0⟩], [⟨0, 9⟩]⟩ : World).lib
      World.init.libs.length).map library.get_name = some "libz.so" :=
  ⟨by decide,
    C10_get_name_is_path demoLoader World.init "libz.so"
      [.get 0 "crc32", .release 0, .release 0] _ (by decide) (by decide)⟩

end dylib
